import Mathlib

/-!
Verification of the fervid template compiler core against its specification.

The development shallowly embeds three source files:
* `crates/fervid/src/analyzer/ast_optimizer.rs`  (namespace `Opt`)
* `crates/fervid/src/compiler/codegen_directives.rs`  (namespace `Cg`)
* `crates/fervid/src/parser/core.rs`  (namespace `Prs`)

Strings are modelled as `List Char` (`Str`).  Rust `u128` bit masks are
modelled as `Nat` with shift amounts reduced modulo 128, which is the
release-mode semantics of an overflowing shift in Rust (debug builds panic
on the same inputs; where that matters it is noted at the theorem).
-/

/-- Strings of the embedded program: borrowed `&str` slices are modelled as
character lists. -/
abbrev Str := List Char

/-- `s.trim().len() == 0` in Rust: every character is whitespace. -/
def strIsWs (s : Str) : Bool :=
  s.all Char.isWhitespace

/-- `needle` occurs as a contiguous run inside `hay` (used only to state
counterexamples about emitted code text). -/
def leadsWith : Str → Str → Bool
  | [], _ => true
  | _ :: _, [] => false
  | a :: xs, b :: ys => a == b && leadsWith xs ys

def occursIn (needle hay : Str) : Bool :=
  match hay with
  | [] => leadsWith needle []
  | _ :: rest => leadsWith needle hay || occursIn needle rest

namespace Opt

/-- Modelled from the spec: element-kind classification of `fervid_core`
(§3 StartingTag) — `Normal`, `Void`, `RawText`, or a builtin wrapper.  The
builtin payload is irrelevant to the optimizer and omitted. -/
inductive ElementKind where
  | Normal
  | Void
  | RawText
  | Builtin
  deriving DecidableEq

/-- Modelled from the spec: the `v-slot` summary of the parsed-directives
structure of `fervid_core` (only `is_dynamic_slot` and `slot_name` are read
by the optimizer, at `is_from_default_slot`). -/
structure VSlot where
  is_dynamic_slot : Bool
  slot_name : Option Str
  deriving DecidableEq

/-- Modelled from the spec: the parsed-directives summary of
`fervid_core::StartingTag`; only the `v_slot` field is consulted by the
optimizer. -/
structure VueDirectives where
  v_slot : Option VSlot
  deriving DecidableEq

/-- Modelled from the spec (§3): `fervid_core::StartingTag` — tag name, an
attribute sequence (opaque to the optimizer, kept as raw attribute text),
an optional parsed-directives summary, the self-closing flag and the
element-kind classification. -/
structure StartingTag where
  tag_name : Str
  attributes : List Str := []
  directives : Option VueDirectives := none
  is_self_closing : Bool := false
  kind : ElementKind := ElementKind.Normal
  deriving DecidableEq

mutual
/-- `fervid_core::ElementNode`: starting tag, ordered children, scope. -/
inductive ElementNode where
  | mk (starting_tag : StartingTag) (children : List Node) (template_scope : Nat)

/-- `fervid_core::Node`: the tagged union over element, text, comment and
dynamic-expression nodes (§3). -/
inductive Node where
  | Element (el : ElementNode)
  | Text (s : Str)
  | Comment (s : Str)
  | DynamicExpression (value : Str) (template_scope : Nat)
end

def ElementNode.starting_tag : ElementNode → StartingTag
  | .mk st _ _ => st

def ElementNode.children : ElementNode → List Node
  | .mk _ c _ => c

def ElementNode.template_scope : ElementNode → Nat
  | .mk _ _ s => s

/-- Modelled from the spec: the external Host-tag Classifier
`all_html_tags::is_html_tag` (§6), a static membership test over the known
HTML tag names; a representative subset of the real table suffices for the
tags exercised here. -/
def isHtmlTag (name : Str) : Bool :=
  name == "div".toList || name == "span".toList || name == "p".toList ||
  name == "a".toList || name == "input".toList || name == "select".toList ||
  name == "textarea".toList || name == "template".toList ||
  name == "h1".toList || name == "br".toList || name == "img".toList ||
  name == "ul".toList || name == "li".toList || name == "button".toList

/-- `AstOptimizer::is_component`: the tag name is not a recognized
host-markup (HTML) tag. -/
def isComponent (starting_tag : StartingTag) : Bool :=
  !(isHtmlTag starting_tag.tag_name)

/-- A whitespace-only text node (`Node::Text(v) if v.trim().len() == 0`). -/
def isWsText : Node → Bool
  | .Text v => strIsWs v
  | _ => false

/-- An `Element` or `Comment` node, the flanking shapes of the
three-node-window rule. -/
def isElC : Node → Bool
  | .Element _ => true
  | .Comment _ => true
  | _ => false

/-- `discard_mask |= 1 << i` on a Rust `u128`: the shift amount is reduced
modulo 128 (release semantics of an overflowing shift; debug builds panic
when `i ≥ 128`). -/
def setBit (mask i : Nat) : Nat :=
  mask ||| (1 <<< (i % 128))

/-- First-child rule (a): mark index 0 when the first child is a
whitespace-only text node. -/
def maskFirst (children : List Node) : Nat :=
  match children.head? with
  | some (Node.Text v) => if strIsWs v then setBit 0 0 else 0
  | _ => 0

/-- Last-child rule (b): mark index `len - 1` when the last child is a
whitespace-only text node. -/
def maskLast (children : List Node) : Nat :=
  match children.getLast? with
  | some (Node.Text v) => if strIsWs v then setBit 0 (children.length - 1) else 0
  | _ => 0

/-- Sliding-window rule (c) over `children.windows(3).enumerate()`: mark
`index + 1` when the middle of a three-node window is a whitespace-only
text node flanked by `Element`/`Comment` nodes on both sides. -/
def maskWindows : List Node → Nat → Nat
  | a :: b :: c :: rest, index =>
      (if isElC a && isWsText b && isElC c then setBit 0 (index + 1) else 0) |||
        maskWindows (b :: c :: rest) (index + 1)
  | _, _ => 0

/-- The full discard bitmask built by `visit_element_node`. -/
def discardMask (children : List Node) : Nat :=
  maskFirst children ||| maskLast children ||| maskWindows children 0

/-- The `retain` pass: drop the child at position `i` when discard bit
`i % 128` is set (the closure computes `discard_mask & (1 << index)` with
the same masked-shift semantics). -/
def retainMasked (mask : Nat) : Nat → List Node → List Node
  | _, [] => []
  | i, x :: xs =>
      if mask.testBit (i % 128) then retainMasked mask (i + 1) xs
      else x :: retainMasked mask (i + 1) xs

/-- Whitespace pruning of one element's direct children (lines 37–75 of
`ast_optimizer.rs`). -/
def pruneChildren (children : List Node) : List Node :=
  retainMasked (discardMask children) 0 children

/-- `is_from_default_slot` (lines 121–144 of `ast_optimizer.rs`). -/
def isFromDefaultSlot (node : Node) : Bool :=
  match node with
  | .Element el =>
      if el.starting_tag.tag_name ≠ "template".toList then true
      else
        match el.starting_tag.directives with
        | none => true
        | some directives =>
            match directives.v_slot with
            | none => true
            | some v_slot =>
                if v_slot.is_dynamic_slot then false
                else
                  match v_slot.slot_name with
                  | none => true
                  | some n => n == "default".toList
  | _ => true

/-- The comparator of `children.sort_by`: `a_is_from_default.cmp(&b_is_from_default)`
as a `Bool`-valued "comes no later than" relation (`false < true`). -/
def slotLe (a b : Node) : Bool :=
  !(isFromDefaultSlot a) || isFromDefaultSlot b

/-- Stable insertion used to model Rust's stable `sort_by`: an element is
placed before the first existing element it must precede, after all
elements comparing less-or-equal before it. -/
def slotInsert (x : Node) : List Node → List Node
  | [] => [x]
  | y :: ys => if slotLe x y then x :: y :: ys else y :: slotInsert x ys

/-- `children.sort_by(...)` — a stable sort by the boolean
`is_from_default_slot` key, ascending (`false`, i.e. named/dynamic slots,
first), modelled as stable insertion sort. -/
def slotSort : List Node → List Node
  | [] => []
  | x :: xs => slotInsert x (slotSort xs)

end Opt

namespace Opt

theorem mem_of_mem_retainMasked {mask : Nat} {x : Node} :
    ∀ {i : Nat} {l : List Node}, x ∈ retainMasked mask i l → x ∈ l := by
  intro i l
  induction l generalizing i with
  | nil => intro h; exact absurd h (by simp [retainMasked])
  | cons y ys ih =>
      intro h
      simp only [retainMasked] at h
      by_cases hb : mask.testBit (i % 128)
      · simp only [hb, if_true] at h
        exact List.mem_cons_of_mem _ (ih h)
      · simp only [hb, if_false] at h
        rcases List.mem_cons.mp h with h | h
        · exact h ▸ List.mem_cons_self _ _
        · exact List.mem_cons_of_mem _ (ih h)

theorem mem_of_mem_slotInsert {x a : Node} :
    ∀ {l : List Node}, x ∈ slotInsert a l → x = a ∨ x ∈ l := by
  intro l
  induction l with
  | nil => intro h; simp [slotInsert] at h; exact Or.inl h
  | cons y ys ih =>
      intro h
      simp only [slotInsert] at h
      by_cases hle : slotLe a y
      · simp only [hle, if_true] at h
        rcases List.mem_cons.mp h with h | h
        · exact Or.inl h
        · exact Or.inr h
      · simp only [hle, if_false] at h
        rcases List.mem_cons.mp h with h | h
        · exact Or.inr (h ▸ List.mem_cons_self _ _)
        · rcases ih h with h | h
          · exact Or.inl h
          · exact Or.inr (List.mem_cons_of_mem _ h)

theorem mem_of_mem_slotSort {x : Node} :
    ∀ {l : List Node}, x ∈ slotSort l → x ∈ l := by
  intro l
  induction l with
  | nil => intro h; simp [slotSort] at h
  | cons y ys ih =>
      intro h
      simp only [slotSort] at h
      rcases mem_of_mem_slotInsert h with h | h
      · exact h ▸ List.mem_cons_self _ _
      · exact List.mem_cons_of_mem _ (ih h)

/-- The child list produced by lines 37–85 of `visit_element_node`, before
the recursive descent: prune whitespace, then, for components with at
least one remaining child, stably sort by the default-slot key. -/
def processChildren (starting_tag : StartingTag) (children : List Node) : List Node :=
  let pruned := pruneChildren children
  if isComponent starting_tag && decide (0 < pruned.length) then slotSort pruned
  else pruned

theorem mem_of_mem_processChildren {x : Node} {st : StartingTag} {l : List Node}
    (h : x ∈ processChildren st l) : x ∈ l := by
  unfold processChildren at h
  by_cases hc : isComponent st && decide (0 < (pruneChildren l).length)
  · simp only [hc, if_true] at h
    exact mem_of_mem_retainMasked (mem_of_mem_slotSort h)
  · simp only [hc, if_false] at h
    exact mem_of_mem_retainMasked h

mutual
/-- `VisitMut for Node`: descend into element nodes, leave the rest. -/
def visitNode : Node → Node
  | .Element el => .Element (visitEl el)
  | n => n
termination_by n => sizeOf n
decreasing_by simp_wf

/-- `visit_element_node` of the `AstOptimizer` (lines 37–88): prune
whitespace children, sort component children by slot key, then recurse
into the surviving children. -/
def visitEl : ElementNode → ElementNode
  | .mk st children scope =>
      .mk st ((processChildren st children).attach.map fun c => visitNode c.1) scope
termination_by el => sizeOf el
decreasing_by
  simp_wf
  rename_i ch sc
  have h1 : sizeOf c.1 < sizeOf ch := List.sizeOf_lt_of_mem (mem_of_mem_processChildren c.2)
  omega
end

theorem visitEl_eq (st : StartingTag) (children : List Node) (scope : Nat) :
    visitEl (.mk st children scope) =
      .mk st ((processChildren st children).map visitNode) scope := by
  rw [visitEl.eq_1]
  rw [List.attach_map_val (processChildren st children) visitNode]

/-- `optimize_template` (lines 5–20): retain only `Element` roots, then
visit each root in place. -/
def optimizeTemplate (roots : List Node) : List Node :=
  (roots.filter fun n => match n with | .Element _ => true | _ => false).map visitNode

end Opt

namespace Opt

theorem visitNode_element (el : ElementNode) :
    visitNode (.Element el) = .Element (visitEl el) := by
  rw [visitNode.eq_def]

theorem visitNode_text (s : Str) : visitNode (.Text s) = .Text s := by
  rw [visitNode.eq_def]

theorem visitNode_comment (s : Str) : visitNode (.Comment s) = .Comment s := by
  rw [visitNode.eq_def]

theorem visitNode_dyn (v : Str) (sc : Nat) :
    visitNode (.DynamicExpression v sc) = .DynamicExpression v sc := by
  rw [visitNode.eq_def]

/-- Visiting keeps the starting tag of an element, hence the default-slot
classification of any node. -/
theorem isFromDefaultSlot_visitNode (n : Node) :
    isFromDefaultSlot (visitNode n) = isFromDefaultSlot n := by
  cases n with
  | Element el =>
      cases el with
      | mk st c sc =>
          rw [visitNode_element, visitEl_eq]
          simp [isFromDefaultSlot, ElementNode.starting_tag]
  | Text s => rw [visitNode_text]
  | Comment s => rw [visitNode_comment]
  | DynamicExpression v sc => rw [visitNode_dyn]

theorem slotInsert_all_default (x : Node) {B : List Node}
    (hB : ∀ b ∈ B, isFromDefaultSlot b = true) :
    slotInsert x B = x :: B := by
  cases B with
  | nil => rfl
  | cons b bs =>
      have hb : isFromDefaultSlot b = true := hB b (List.mem_cons_self _ _)
      simp [slotInsert, slotLe, hb]

theorem slotInsert_app (x : Node) {A B : List Node}
    (hA : ∀ a ∈ A, isFromDefaultSlot a = false)
    (hB : ∀ b ∈ B, isFromDefaultSlot b = true) :
    slotInsert x (A ++ B) =
      if isFromDefaultSlot x then A ++ x :: B else x :: (A ++ B) := by
  induction A with
  | nil =>
      simp only [List.nil_append]
      rw [slotInsert_all_default x hB]
      by_cases hx : isFromDefaultSlot x <;> simp [hx]
  | cons a as ih =>
      have ha : isFromDefaultSlot a = false := hA a (List.mem_cons_self _ _)
      have has : ∀ a' ∈ as, isFromDefaultSlot a' = false :=
        fun a' h => hA a' (List.mem_cons_of_mem _ h)
      by_cases hx : isFromDefaultSlot x
      · simp [slotInsert, slotLe, ha, hx, ih has]
      · simp only [Bool.not_eq_true] at hx
        simp [slotInsert, slotLe, ha, hx, ih has]

/-- Rust's stable `sort_by` with the boolean `is_from_default_slot` key is
exactly the stable partition: non-default (named/dynamic slot) children
first, then default-slot-eligible children, order preserved within each
part. -/
theorem slotSort_partition (l : List Node) :
    slotSort l = l.filter (fun n => !isFromDefaultSlot n) ++
      l.filter (fun n => isFromDefaultSlot n) := by
  induction l with
  | nil => rfl
  | cons x xs ih =>
      have hA : ∀ a ∈ xs.filter (fun n => !isFromDefaultSlot n),
          isFromDefaultSlot a = false := by
        intro a ha
        have := List.of_mem_filter ha
        simpa using this
      have hB : ∀ b ∈ xs.filter (fun n => isFromDefaultSlot n),
          isFromDefaultSlot b = true := by
        intro b hb
        simpa using List.of_mem_filter hb
      show slotInsert x (slotSort xs) = _
      rw [ih, slotInsert_app x hA hB]
      by_cases hx : isFromDefaultSlot x
      · simp [List.filter, hx]
      · simp only [Bool.not_eq_true] at hx
        simp [List.filter, hx]

end Opt

namespace Opt

/-- Concrete fixture: `<template v-slot:foo>` — a named-slot template,
not default-slot-eligible. -/
def exTemplateNamed : Node :=
  .Element (.mk
    { tag_name := "template".toList,
      directives := some { v_slot := some { is_dynamic_slot := false,
                                            slot_name := some "foo".toList } } }
    [] 0)

/-- Concrete fixture: a plain (non-whitespace) text child. -/
def exTextX : Node := .Text "x".toList

/-- Concrete fixture: a component starting tag (not a known HTML tag). -/
def exCompTag : StartingTag := { tag_name := "my-comp".toList }

theorem visitNode_exTemplateNamed : visitNode exTemplateNamed = exTemplateNamed := by
  show visitNode (.Element _) = _
  rw [visitNode_element, visitEl_eq]
  rfl

/-- C1, counterexample: for the component `<my-comp>` with children
`[<template v-slot:foo>, Text "x"]` the optimizer leaves the named-slot
template (not default-slot-eligible) at position 0, ahead of the
default-slot-eligible text child — so default-slot-eligible children do
not precede the others, contrary to the claim. -/
theorem c1_counterexample :
    (visitEl (.mk exCompTag [exTemplateNamed, exTextX] 0)).children
        = [exTemplateNamed, exTextX] ∧
      isFromDefaultSlot exTemplateNamed = false ∧
      isFromDefaultSlot exTextX = true := by
  refine ⟨?_, by decide, by decide⟩
  rw [visitEl_eq]
  have h : processChildren exCompTag [exTemplateNamed, exTextX]
      = [exTemplateNamed, exTextX] := rfl
  rw [h]
  simp [visitNode_exTemplateNamed, exTextX, visitNode_text, ElementNode.children]

end Opt

namespace Opt

theorem filter_not_default_visit (l : List Node) :
    (l.map visitNode).filter (fun n => !isFromDefaultSlot n) =
      (l.filter (fun n => !isFromDefaultSlot n)).map visitNode := by
  rw [List.filter_map]
  congr 1
  apply List.filter_congr
  intro a _
  simp [Function.comp, isFromDefaultSlot_visitNode]

theorem filter_default_visit (l : List Node) :
    (l.map visitNode).filter (fun n => isFromDefaultSlot n) =
      (l.filter (fun n => isFromDefaultSlot n)).map visitNode := by
  rw [List.filter_map]
  congr 1
  apply List.filter_congr
  intro a _
  simp [Function.comp, isFromDefaultSlot_visitNode]

theorem filter_not_default_slotSort (l : List Node) :
    (slotSort l).filter (fun n => !isFromDefaultSlot n) =
      l.filter (fun n => !isFromDefaultSlot n) := by
  rw [slotSort_partition, List.filter_append, List.filter_filter, List.filter_filter]
  have h1 : l.filter (fun a => !isFromDefaultSlot a && !isFromDefaultSlot a) =
      l.filter (fun n => !isFromDefaultSlot n) := by
    apply List.filter_congr; intro a _; cases h : isFromDefaultSlot a <;> simp [h]
  have h2 : l.filter (fun a => !isFromDefaultSlot a && isFromDefaultSlot a) = [] := by
    rw [List.filter_eq_nil_iff]
    intro a _; cases h : isFromDefaultSlot a <;> simp [h]
  rw [h1, h2, List.append_nil]

theorem filter_default_slotSort (l : List Node) :
    (slotSort l).filter (fun n => isFromDefaultSlot n) =
      l.filter (fun n => isFromDefaultSlot n) := by
  rw [slotSort_partition, List.filter_append, List.filter_filter, List.filter_filter]
  have h1 : l.filter (fun a => isFromDefaultSlot a && !isFromDefaultSlot a) = [] := by
    rw [List.filter_eq_nil_iff]
    intro a _; cases h : isFromDefaultSlot a <;> simp [h]
  have h2 : l.filter (fun a => isFromDefaultSlot a && isFromDefaultSlot a) =
      l.filter (fun n => isFromDefaultSlot n) := by
    apply List.filter_congr; intro a _; cases h : isFromDefaultSlot a <;> simp [h]
  rw [h1, h2, List.nil_append]

/-- C1, amended: for a component element the optimizer stably partitions
the pruned children so that every non-default (named/dynamic-slot) child
precedes every default-slot-eligible child: both partitions keep their
relative order (the filters agree with the unsorted pruned-and-visited
list), and no default-slot-eligible child is followed by a non-default
one. -/
theorem c1_slot_partition (st : StartingTag) (children : List Node) (scope : Nat)
    (hcomp : isComponent st = true) :
    ((visitEl (.mk st children scope)).children.filter (fun n => !isFromDefaultSlot n) =
        ((pruneChildren children).map visitNode).filter (fun n => !isFromDefaultSlot n)) ∧
      ((visitEl (.mk st children scope)).children.filter (fun n => isFromDefaultSlot n) =
        ((pruneChildren children).map visitNode).filter (fun n => isFromDefaultSlot n)) ∧
      List.Pairwise
        (fun a b => isFromDefaultSlot a = true → isFromDefaultSlot b = true)
        (visitEl (.mk st children scope)).children := by
  rw [visitEl_eq]
  simp only [ElementNode.children]
  unfold processChildren
  by_cases hlen : 0 < (pruneChildren children).length
  · have hd : (isComponent st && decide (0 < (pruneChildren children).length)) = true := by
      rw [hcomp, decide_eq_true hlen]; rfl
    simp only [hd, if_true]
    refine ⟨?_, ?_, ?_⟩
    · rw [filter_not_default_visit, filter_not_default_slotSort,
        ← filter_not_default_visit]
    · rw [filter_default_visit, filter_default_slotSort, ← filter_default_visit]
    · rw [List.pairwise_map]
      rw [slotSort_partition]
      rw [List.pairwise_append]
      refine ⟨?_, ?_, ?_⟩
      · apply List.pairwise_of_forall_mem_list
        intro a ha _ _
        have ha' := List.of_mem_filter ha
        simp only [Bool.not_eq_true', isFromDefaultSlot_visitNode] at ha' ⊢
        intro hcontra
        rw [ha'] at hcontra
        exact absurd hcontra (by simp)
      · apply List.pairwise_of_forall_mem_list
        intro a _ b hb
        have hb' := List.of_mem_filter hb
        simp only [isFromDefaultSlot_visitNode]
        intro _
        exact hb'
      · intro a _ b hb
        have hb' := List.of_mem_filter hb
        simp only [isFromDefaultSlot_visitNode]
        intro _
        exact hb'
  · have hnil : pruneChildren children = [] := by
      cases hp : pruneChildren children with
      | nil => rfl
      | cons y ys => rw [hp] at hlen; exact absurd (by simp) hlen
    rw [hnil]
    refine ⟨by simp, by simp, by simp⟩

end Opt

namespace Opt

/-- Witness for `c1_slot_partition` at the component `<my-comp>` with
children `[<template v-slot:foo>, Text "x"]`. -/
theorem c1_slot_partition_witness :
    isComponent exCompTag = true ∧
      (((visitEl (.mk exCompTag [exTemplateNamed, exTextX] 0)).children.filter
            (fun n => !isFromDefaultSlot n) =
          ((pruneChildren [exTemplateNamed, exTextX]).map visitNode).filter
            (fun n => !isFromDefaultSlot n)) ∧
        ((visitEl (.mk exCompTag [exTemplateNamed, exTextX] 0)).children.filter
            (fun n => isFromDefaultSlot n) =
          ((pruneChildren [exTemplateNamed, exTextX]).map visitNode).filter
            (fun n => isFromDefaultSlot n)) ∧
        List.Pairwise
          (fun a b => isFromDefaultSlot a = true → isFromDefaultSlot b = true)
          (visitEl (.mk exCompTag [exTemplateNamed, exTextX] 0)).children) :=
  ⟨by decide, c1_slot_partition exCompTag [exTemplateNamed, exTextX] 0 (by decide)⟩

end Opt

namespace Opt

/-- Failing input for the discard-bitmask ceiling: 129 direct children —
an `Element` first, 127 non-whitespace text nodes, and a whitespace-only
text node at index 128. -/
def c2FirstChild : Node := .Element (.mk { tag_name := "div".toList } [] 0)

def c2Children : List Node :=
  c2FirstChild :: List.replicate 127 (Node.Text "x".toList) ++ [Node.Text " ".toList]

set_option maxRecDepth 4096 in
/-- C2, evaluation at the failing input: with 129 children the last-child
rule computes `1u128 << 128`.  A debug build of the source panics there
(shift overflow); in release the shift amount is masked modulo 128, so the
whitespace text child at index 128 sets discard bit 0 and the retain pass
(whose own shift aliases the same way) drops both the first child — a
non-whitespace `Element` that no rule should ever mark — and the child at
index 128, which the claim says is not eligible for removal.  Either way
the claimed graceful degradation does not happen. -/
theorem c2_mask_alias :
    c2Children.length = 129 ∧
      isWsText c2FirstChild = false ∧
      pruneChildren c2Children = List.replicate 127 (Node.Text "x".toList) := by
  refine ⟨by decide, by decide, ?_⟩
  rfl

end Opt

namespace Opt

/-- Spec-side reading: the first child is a whitespace-only text node. -/
def firstIsWs (c : List Node) : Bool :=
  match c.head? with
  | some n => isWsText n
  | none => false

/-- Spec-side reading: the last child is a whitespace-only text node. -/
def lastIsWs (c : List Node) : Bool :=
  match c.getLast? with
  | some n => isWsText n
  | none => false

/-- Spec-side reading of the sliding-window rule: position `i` is the
middle of some three-child window (windows starting at `index`) whose
middle is whitespace-only text flanked by `Element`/`Comment` nodes. -/
def windowHit : List Node → Nat → Nat → Bool
  | a :: b :: d :: rest, index, i =>
      ((i == index + 1) && isElC a && isWsText b && isElC d) ||
        windowHit (b :: d :: rest) (index + 1) i
  | _, _, _ => false

/-- Spec-side marking over original (pre-removal) child positions, as the
claim words it: the first child if whitespace-only text, the last child
likewise, and every window middle that is whitespace-only text flanked by
`Element`/`Comment` nodes. -/
def specMarked (c : List Node) (i : Nat) : Bool :=
  (i == 0 && firstIsWs c) || (i + 1 == c.length && lastIsWs c) || windowHit c 0 i

/-- One order-preserving pass dropping the children at marked positions. -/
def filterIdxNot (p : Nat → Bool) : Nat → List Node → List Node
  | _, [] => []
  | i, x :: xs => if p i then filterIdxNot p (i + 1) xs else x :: filterIdxNot p (i + 1) xs

/-- The claim's description of whitespace pruning, assembled from the
spec's words: mark, then remove in one retain pass. -/
def pruneSpecChildren (c : List Node) : List Node :=
  filterIdxNot (specMarked c) 0 c

theorem testBit_setBit0 (j i : Nat) : (setBit 0 j).testBit i = (i == j % 128) := by
  unfold setBit
  rw [Nat.zero_or, Nat.one_shiftLeft, Nat.testBit_two_pow]
  cases h : (i == j % 128)
  · simp only [beq_eq_false_iff_ne] at h
    exact decide_eq_false fun hc => h hc.symm
  · simp only [beq_iff_eq] at h
    exact decide_eq_true h.symm

theorem testBit_maskFirst (c : List Node) (i : Nat) :
    (maskFirst c).testBit i = (i == 0 && firstIsWs c) := by
  unfold maskFirst firstIsWs
  cases hh : c.head? with
  | none => simp
  | some n =>
      cases n with
      | Text v =>
          by_cases hw : strIsWs v
          · simp only [hw, if_true, testBit_setBit0, isWsText]
            simp
          · simp [isWsText, hw]
      | Element el => simp [isWsText]
      | Comment s => simp [isWsText]
      | DynamicExpression v sc => simp [isWsText]

theorem testBit_maskLast (c : List Node) (i : Nat) (hlen : c.length ≤ 128) :
    (maskLast c).testBit i = (i + 1 == c.length && lastIsWs c) := by
  unfold maskLast lastIsWs
  cases hh : c.getLast? with
  | none =>
      have : c = [] := List.getLast?_eq_none_iff.mp hh
      subst this
      simp
  | some n =>
      have hne : c ≠ [] := by
        intro hc; rw [hc] at hh; simp at hh
      have hpos : 0 < c.length := List.length_pos.mpr hne
      cases n with
      | Text v =>
          by_cases hw : strIsWs v
          · simp only [hw, if_true, testBit_setBit0, isWsText]
            have hmod : (c.length - 1) % 128 = c.length - 1 :=
              Nat.mod_eq_of_lt (by omega)
            rw [hmod]
            cases hi : (i == c.length - 1)
            · simp only [beq_eq_false_iff_ne] at hi
              have : (i + 1 == c.length) = false := by
                simp only [beq_eq_false_iff_ne]
                omega
              simp [this]
            · simp only [beq_iff_eq] at hi
              have : (i + 1 == c.length) = true := by
                simp only [beq_iff_eq]
                omega
              simp [this]
          · simp [isWsText, hw]
      | Element el => simp [isWsText]
      | Comment s => simp [isWsText]
      | DynamicExpression v sc => simp [isWsText]

theorem testBit_maskWindows (l : List Node) (index i : Nat)
    (hlen : index + l.length ≤ 128) :
    (maskWindows l index).testBit i = windowHit l index i := by
  induction l generalizing index with
  | nil => simp [maskWindows, windowHit]
  | cons a tl ih =>
      cases tl with
      | nil => simp [maskWindows, windowHit]
      | cons b tl2 =>
          cases tl2 with
          | nil => simp [maskWindows, windowHit]
          | cons d rest =>
              have hlen' : index + 1 + (b :: d :: rest).length ≤ 128 := by
                simp only [List.length_cons] at hlen ⊢
                omega
              show ((if isElC a && isWsText b && isElC d then setBit 0 (index + 1)
                  else 0) ||| maskWindows (b :: d :: rest) (index + 1)).testBit i = _
              rw [Nat.testBit_lor, ih (index + 1) hlen']
              show _ = (((i == index + 1) && isElC a && isWsText b && isElC d) ||
                windowHit (b :: d :: rest) (index + 1) i)
              congr 1
              have hmod : (index + 1) % 128 = index + 1 := by
                apply Nat.mod_eq_of_lt
                simp only [List.length_cons] at hlen
                omega
              cases hca : isElC a <;> cases hwb : isWsText b <;> cases hcd : isElC d <;>
                simp [testBit_setBit0, hmod]

end Opt

namespace Opt

theorem testBit_discardMask (c : List Node) (i : Nat) (hlen : c.length ≤ 128) :
    (discardMask c).testBit i = specMarked c i := by
  unfold discardMask specMarked
  rw [Nat.testBit_lor, Nat.testBit_lor, testBit_maskFirst, testBit_maskLast c i hlen,
    testBit_maskWindows c 0 i (by simpa using hlen)]

theorem retainMasked_eq_filterIdxNot (mask : Nat) (q : Nat → Bool) :
    ∀ (l : List Node) (i : Nat),
      (∀ j, i ≤ j → j < i + l.length → mask.testBit (j % 128) = q j) →
      retainMasked mask i l = filterIdxNot q i l := by
  intro l
  induction l with
  | nil => intro i _; rfl
  | cons x xs ih =>
      intro i h
      have hi : mask.testBit (i % 128) = q i :=
        h i (Nat.le_refl i) (by simp)
      have hrec : retainMasked mask (i + 1) xs = filterIdxNot q (i + 1) xs := by
        apply ih
        intro j hj1 hj2
        apply h j (by omega)
        simp only [List.length_cons]
        omega
      show (if mask.testBit (i % 128) then _ else _) = (if q i then _ else _)
      rw [hi, hrec]

/-- The shared bridge: for at most 128 children the source's bitmask prune
computes exactly the spec's mark-and-retain description. -/
theorem prune_eq_pruneSpec (c : List Node) (hlen : c.length ≤ 128) :
    pruneChildren c = pruneSpecChildren c := by
  unfold pruneChildren pruneSpecChildren
  apply retainMasked_eq_filterIdxNot
  intro j _ hj
  simp only [Nat.zero_add] at hj
  rw [Nat.mod_eq_of_lt (by omega)]
  exact testBit_discardMask c j hlen

/-- Concrete fixture elements for the claim's literal scenario. -/
def c4ElemA : Node := .Element (.mk { tag_name := "div".toList } [] 0)

def c4ElemB : Node := .Element (.mk { tag_name := "span".toList } [] 0)

def c4Example : List Node :=
  [.Text " ".toList, c4ElemA, .Text "  ".toList, c4ElemB, .Text " ".toList]

/-- C4: whitespace pruning is exactly the spec's mark-and-retain pass over
original (pre-removal) positions — first whitespace-only text child, last
likewise, and every flanked window middle — for any child list within the
128-bit mask ceiling; and on the claim's literal five-child scenario
`[Text " ", Element a, Text "  ", Element b, Text " "]` the result is
`[Element a, Element b]`. -/
theorem c4_whitespace_prune :
    (∀ c : List Node, c.length ≤ 128 → pruneChildren c = pruneSpecChildren c) ∧
      pruneChildren c4Example = [c4ElemA, c4ElemB] := by
  refine ⟨fun c hlen => prune_eq_pruneSpec c hlen, ?_⟩
  rfl

/-- Witness for the bounded part of `c4_whitespace_prune`, instantiated at
the claim's literal scenario. -/
theorem c4_whitespace_prune_witness :
    c4Example.length ≤ 128 ∧ pruneChildren c4Example = pruneSpecChildren c4Example :=
  ⟨by decide, c4_whitespace_prune.1 c4Example (by decide)⟩

end Opt

namespace Opt

theorem isWsText_visitNode (n : Node) : isWsText (visitNode n) = isWsText n := by
  cases n with
  | Element el => rw [visitNode_element]; rfl
  | Text s => rw [visitNode_text]
  | Comment s => rw [visitNode_comment]
  | DynamicExpression v sc => rw [visitNode_dyn]

theorem isElC_visitNode (n : Node) : isElC (visitNode n) = isElC n := by
  cases n with
  | Element el => rw [visitNode_element]; rfl
  | Text s => rw [visitNode_text]
  | Comment s => rw [visitNode_comment]
  | DynamicExpression v sc => rw [visitNode_dyn]

theorem maskFirst_map_visit (l : List Node) :
    maskFirst (l.map visitNode) = maskFirst l := by
  cases l with
  | nil => rfl
  | cons x xs =>
      show maskFirst (visitNode x :: xs.map visitNode) = maskFirst (x :: xs)
      unfold maskFirst
      cases x with
      | Element el => rw [visitNode_element]; rfl
      | Text s => rw [visitNode_text]; rfl
      | Comment s => rw [visitNode_comment]; rfl
      | DynamicExpression v sc => rw [visitNode_dyn]; rfl

theorem maskLast_map_visit (l : List Node) :
    maskLast (l.map visitNode) = maskLast l := by
  unfold maskLast
  rw [List.getLast?_map, List.length_map]
  cases hl : l.getLast? with
  | none => rfl
  | some n =>
      cases n with
      | Element el => rw [Option.map_some', visitNode_element]
      | Text s => rw [Option.map_some', visitNode_text]
      | Comment s => rw [Option.map_some', visitNode_comment]
      | DynamicExpression v sc => rw [Option.map_some', visitNode_dyn]

theorem maskWindows_map_visit (l : List Node) (index : Nat) :
    maskWindows (l.map visitNode) index = maskWindows l index := by
  induction l generalizing index with
  | nil => rfl
  | cons a tl ih =>
      cases tl with
      | nil => rfl
      | cons b tl2 =>
          cases tl2 with
          | nil => rfl
          | cons d rest =>
              show maskWindows (visitNode a :: visitNode b :: visitNode d ::
                rest.map visitNode) index = _
              unfold maskWindows
              rw [isElC_visitNode, isWsText_visitNode, isElC_visitNode]
              have := ih (index + 1)
              simp only [List.map] at this ⊢
              rw [this]

theorem discardMask_map_visit (l : List Node) :
    discardMask (l.map visitNode) = discardMask l := by
  unfold discardMask
  rw [maskFirst_map_visit, maskLast_map_visit, maskWindows_map_visit]

theorem retainMasked_map_visit (mask : Nat) :
    ∀ (l : List Node) (i : Nat),
      retainMasked mask i (l.map visitNode) = (retainMasked mask i l).map visitNode := by
  intro l
  induction l with
  | nil => intro i; rfl
  | cons x xs ih =>
      intro i
      show retainMasked mask i (visitNode x :: xs.map visitNode) = _
      unfold retainMasked
      by_cases hb : mask.testBit (i % 128)
      · simp [hb, ih]
      · simp [hb, ih]

theorem pruneChildren_map_visit (l : List Node) :
    pruneChildren (l.map visitNode) = (pruneChildren l).map visitNode := by
  unfold pruneChildren
  rw [discardMask_map_visit, retainMasked_map_visit]

theorem slotSort_map_visit (l : List Node) :
    slotSort (l.map visitNode) = (slotSort l).map visitNode := by
  rw [slotSort_partition, slotSort_partition]
  rw [filter_not_default_visit, filter_default_visit, List.map_append]

theorem processChildren_map_visit (st : StartingTag) (l : List Node) :
    processChildren st (l.map visitNode) = (processChildren st l).map visitNode := by
  simp only [processChildren]
  rw [pruneChildren_map_visit, List.length_map, slotSort_map_visit]
  by_cases hc : isComponent st && decide (0 < (pruneChildren l).length)
  · simp only [hc, if_true]
  · simp only [hc]; rfl

end Opt

namespace Opt

theorem maskFirst_eq_zero {l : List Node} (h : ∀ n ∈ l, isWsText n = false) :
    maskFirst l = 0 := by
  unfold maskFirst
  cases hh : l.head? with
  | none => rfl
  | some n =>
      have hn : n ∈ l := List.mem_of_mem_head? (by rw [hh]; rfl)
      cases n with
      | Text v =>
          have := h _ hn
          simp only [isWsText] at this
          simp [this]
      | Element el => rfl
      | Comment s => rfl
      | DynamicExpression v sc => rfl

theorem maskLast_eq_zero {l : List Node} (h : ∀ n ∈ l, isWsText n = false) :
    maskLast l = 0 := by
  unfold maskLast
  cases hh : l.getLast? with
  | none => rfl
  | some n =>
      have hn : n ∈ l := List.mem_of_getLast?_eq_some hh
      cases n with
      | Text v =>
          have := h _ hn
          simp only [isWsText] at this
          simp [this]
      | Element el => rfl
      | Comment s => rfl
      | DynamicExpression v sc => rfl

theorem maskWindows_eq_zero :
    ∀ {l : List Node} (index : Nat), (∀ n ∈ l, isWsText n = false) →
      maskWindows l index = 0 := by
  intro l
  induction l with
  | nil => intro index _; rfl
  | cons a tl ih =>
      intro index h
      cases tl with
      | nil => rfl
      | cons b tl2 =>
          cases tl2 with
          | nil => rfl
          | cons d rest =>
              have hb : isWsText b = false :=
                h b (List.mem_cons_of_mem _ (List.mem_cons_self _ _))
              have hrec := ih (index + 1) fun n hn => h n (List.mem_cons_of_mem _ hn)
              show (if isElC a && isWsText b && isElC d then _ else 0) |||
                maskWindows (b :: d :: rest) (index + 1) = 0
              rw [hrec, hb]
              simp

theorem discardMask_eq_zero {l : List Node} (h : ∀ n ∈ l, isWsText n = false) :
    discardMask l = 0 := by
  unfold discardMask
  rw [maskFirst_eq_zero h, maskLast_eq_zero h, maskWindows_eq_zero 0 h]
  simp

theorem retainMasked_zero : ∀ (i : Nat) (l : List Node), retainMasked 0 i l = l := by
  intro i l
  induction l generalizing i with
  | nil => rfl
  | cons x xs ih =>
      show (if Nat.testBit 0 (i % 128) then _ else _) = x :: xs
      rw [Nat.zero_testBit]
      simp [ih]

theorem pruneChildren_of_mask_zero {l : List Node} (h : discardMask l = 0) :
    pruneChildren l = l := by
  unfold pruneChildren
  rw [h, retainMasked_zero]

theorem slotSort_idem (l : List Node) : slotSort (slotSort l) = slotSort l := by
  rw [slotSort_partition l]
  rw [slotSort_partition]
  have hA : (l.filter (fun n => !isFromDefaultSlot n) ++
      l.filter (fun n => isFromDefaultSlot n)).filter (fun n => !isFromDefaultSlot n) =
      l.filter (fun n => !isFromDefaultSlot n) := by
    rw [List.filter_append]
    have h1 : (l.filter (fun n => !isFromDefaultSlot n)).filter
        (fun n => !isFromDefaultSlot n) = l.filter (fun n => !isFromDefaultSlot n) := by
      rw [List.filter_eq_self]
      intro a ha
      simpa using List.of_mem_filter ha
    have h2 : (l.filter (fun n => isFromDefaultSlot n)).filter
        (fun n => !isFromDefaultSlot n) = [] := by
      rw [List.filter_eq_nil_iff]
      intro a ha
      have := List.of_mem_filter ha
      simp [this]
    rw [h1, h2, List.append_nil]
  have hB : (l.filter (fun n => !isFromDefaultSlot n) ++
      l.filter (fun n => isFromDefaultSlot n)).filter (fun n => isFromDefaultSlot n) =
      l.filter (fun n => isFromDefaultSlot n) := by
    rw [List.filter_append]
    have h1 : (l.filter (fun n => !isFromDefaultSlot n)).filter
        (fun n => isFromDefaultSlot n) = [] := by
      rw [List.filter_eq_nil_iff]
      intro a ha
      have := List.of_mem_filter ha
      simp only [Bool.not_eq_true'] at this
      simp [this]
    have h2 : (l.filter (fun n => isFromDefaultSlot n)).filter
        (fun n => isFromDefaultSlot n) = l.filter (fun n => isFromDefaultSlot n) := by
      rw [List.filter_eq_self]
      intro a ha
      simpa using List.of_mem_filter ha
    rw [h1, h2, List.nil_append]
  rw [hA, hB]

end Opt

namespace Opt

mutual
/-- Trees on which a single optimizer pass is a fixed point: no element's
children trigger whitespace pruning, and component elements have no
whitespace-only text children (so slot sorting cannot move whitespace into
a prunable position). -/
def goodNode : Node → Bool
  | .Element el => goodEl el
  | _ => true

def goodEl : ElementNode → Bool
  | .mk st c _ =>
      (discardMask c == 0) &&
        (!(isComponent st) || c.all fun n => !isWsText n) && goodList c

def goodList : List Node → Bool
  | [] => true
  | x :: xs => goodNode x && goodList xs
end

theorem goodList_mem : ∀ {l : List Node}, goodList l = true → ∀ x ∈ l, goodNode x = true := by
  intro l
  induction l with
  | nil => intro _ x hx; exact absurd hx (by simp)
  | cons y ys ih =>
      intro h x hx
      have h' : goodNode y = true ∧ goodList ys = true := by
        have hy : (goodNode y && goodList ys) = true := h
        rw [Bool.and_eq_true] at hy
        exact hy
      rcases List.mem_cons.mp hx with hx | hx
      · exact hx ▸ h'.1
      · exact ih h'.2 x hx

theorem goodEl_parts {st : StartingTag} {c : List Node} {sc : Nat}
    (h : goodEl (.mk st c sc) = true) :
    discardMask c = 0 ∧
      (isComponent st = true → ∀ n ∈ c, isWsText n = false) ∧
      goodList c = true := by
  have h' : ((discardMask c == 0) &&
      (!(isComponent st) || c.all fun n => !isWsText n) && goodList c) = true := h
  rw [Bool.and_eq_true, Bool.and_eq_true] at h'
  refine ⟨by simpa using h'.1.1, ?_, h'.2⟩
  intro hcomp n hn
  have h2 := h'.1.2
  rw [hcomp] at h2
  simp only [Bool.not_true, Bool.false_or, List.all_eq_true] at h2
  simpa using h2 n hn

theorem slotInsert_length (x : Node) (l : List Node) :
    (slotInsert x l).length = l.length + 1 := by
  induction l with
  | nil => rfl
  | cons y ys ih =>
      show (if slotLe x y then _ else _ : List Node).length = _
      by_cases hle : slotLe x y
      · simp [hle]
      · simp [hle, ih]

theorem slotSort_length (l : List Node) : (slotSort l).length = l.length := by
  induction l with
  | nil => rfl
  | cons x xs ih =>
      show (slotInsert x (slotSort xs)).length = _
      rw [slotInsert_length, ih]
      rfl

theorem mem_of_mem_processChildren' {x : Node} {st : StartingTag} {l : List Node}
    (h : x ∈ processChildren st l) : x ∈ l :=
  mem_of_mem_processChildren h

/-- One child-processing step is idempotent on good child lists. -/
theorem processChildren_idem {st : StartingTag} {c : List Node}
    (hmask : discardMask c = 0)
    (hws : isComponent st = true → ∀ n ∈ c, isWsText n = false) :
    processChildren st (processChildren st c) = processChildren st c := by
  have hprune : pruneChildren c = c := pruneChildren_of_mask_zero hmask
  by_cases hcond : (isComponent st && decide (0 < c.length)) = true
  · have hinner : processChildren st c = slotSort c := by
      simp only [processChildren, hprune, hcond, if_true]
    rw [hinner]
    have hcond' := hcond
    rw [Bool.and_eq_true] at hcond'
    have hcomp : isComponent st = true := hcond'.1
    have hlen : 0 < c.length := of_decide_eq_true hcond'.2
    have hnows : ∀ n ∈ slotSort c, isWsText n = false := fun n hn =>
      hws hcomp n (mem_of_mem_slotSort hn)
    have hmask2 : discardMask (slotSort c) = 0 := discardMask_eq_zero hnows
    have hprune2 : pruneChildren (slotSort c) = slotSort c :=
      pruneChildren_of_mask_zero hmask2
    have hcond2 : (isComponent st && decide (0 < (slotSort c).length)) = true := by
      rw [slotSort_length, hcomp, decide_eq_true hlen]; rfl
    simp only [processChildren, hprune2, hcond2, if_true]
    exact slotSort_idem c
  · have hf : (isComponent st && decide (0 < c.length)) = false := by
      revert hcond
      cases (isComponent st && decide (0 < c.length)) <;> simp
    have hinner : processChildren st c = c := by
      simp only [processChildren, hprune, hf]
      rfl
    rw [hinner]
    exact hinner

end Opt

namespace Opt

theorem sizeOf_node_pos (n : Node) : 1 ≤ sizeOf n := by
  cases n <;> simp_arith

theorem visitNode_idem_aux :
    ∀ (k : Nat) (n : Node), sizeOf n ≤ k → goodNode n = true →
      visitNode (visitNode n) = visitNode n := by
  intro k
  induction k with
  | zero =>
      intro n hsz _
      exact absurd hsz (by have := sizeOf_node_pos n; omega)
  | succ k ih =>
      intro n hsz hg
      cases n with
      | Text s => rw [visitNode_text, visitNode_text]
      | Comment s => rw [visitNode_comment, visitNode_comment]
      | DynamicExpression v sc => rw [visitNode_dyn, visitNode_dyn]
      | Element el =>
          cases el with
          | mk st c sc =>
              have hge : goodEl (.mk st c sc) = true := hg
              obtain ⟨hmask, hws, hlist⟩ := goodEl_parts hge
              rw [visitNode_element, visitEl_eq, visitNode_element, visitEl_eq]
              congr 1
              rw [processChildren_map_visit, processChildren_idem hmask hws,
                List.map_map]
              congr 1
              apply List.map_congr_left
              intro x hx
              have hxc : x ∈ c := mem_of_mem_processChildren hx
              have hxsz : sizeOf x ≤ k := by
                have h1 : sizeOf x < sizeOf c := List.sizeOf_lt_of_mem hxc
                have h2 : sizeOf (Node.Element (.mk st c sc)) ≤ k + 1 := hsz
                simp_arith at h2
                omega
              exact ih x hxsz (goodList_mem hlist x hxc)

/-- A single visit is idempotent on good nodes. -/
theorem visitNode_idem (n : Node) (hg : goodNode n = true) :
    visitNode (visitNode n) = visitNode n :=
  visitNode_idem_aux (sizeOf n) n (Nat.le_refl _) hg

theorem elementB_visitNode (n : Node) :
    (match visitNode n with | Node.Element _ => true | _ => false) =
      (match n with | Node.Element _ => true | _ => false) := by
  cases n with
  | Element el => rw [visitNode_element]
  | Text s => rw [visitNode_text]
  | Comment s => rw [visitNode_comment]
  | DynamicExpression v sc => rw [visitNode_dyn]

/-- C3, amended: optimization is idempotent on every tree in which no
element's children trigger whitespace pruning (the discard mask is zero:
no whitespace-only text child in first, last or flanked-middle position)
and no component element has a whitespace-only text child; on general
trees a second run can prune further whitespace (see the counterexample),
so the claim's unconditional idempotence fails. -/
theorem c3_optimize_idem (roots : List Node) (hg : goodList roots = true) :
    optimizeTemplate (optimizeTemplate roots) = optimizeTemplate roots := by
  unfold optimizeTemplate
  rw [List.filter_map]
  have hflt : ((roots.filter fun n =>
      match n with | Node.Element _ => true | _ => false).filter
        ((fun n => match n with | Node.Element _ => true | _ => false) ∘ visitNode)) =
      roots.filter fun n => match n with | Node.Element _ => true | _ => false := by
    rw [List.filter_eq_self]
    intro a ha
    show (match visitNode a with | Node.Element _ => true | _ => false) = true
    rw [elementB_visitNode]
    have h2 := List.of_mem_filter ha
    exact h2
  rw [hflt, List.map_map]
  apply List.map_congr_left
  intro x hx
  exact visitNode_idem x (goodList_mem hg x (List.mem_of_mem_filter hx))

end Opt

namespace Opt

/-- Witness for `c3_optimize_idem` at a concrete good tree: a component
with a named-slot template and a non-whitespace text child. -/
theorem c3_optimize_idem_witness :
    goodList [Node.Element (.mk exCompTag [exTemplateNamed, exTextX] 0)] = true ∧
      optimizeTemplate (optimizeTemplate
          [Node.Element (.mk exCompTag [exTemplateNamed, exTextX] 0)]) =
        optimizeTemplate [Node.Element (.mk exCompTag [exTemplateNamed, exTextX] 0)] :=
  ⟨by decide, c3_optimize_idem _ (by decide)⟩

end Opt

namespace Opt

def c3DivTag : StartingTag := { tag_name := "div".toList }

def c3SpanNode : Node := .Element (.mk { tag_name := "span".toList } [] 0)

/-- Counterexample tree for idempotence: `<div>` with two leading
whitespace-only text children before a `<span>`. -/
def c3Tree : Node :=
  .Element (.mk c3DivTag [.Text " ".toList, .Text " ".toList, c3SpanNode] 0)

def firstRootChildCount : List Node → Nat
  | .Element (.mk _ c _) :: _ => c.length
  | _ => 0

theorem visitNode_c3SpanNode : visitNode c3SpanNode = c3SpanNode := by
  show visitNode (.Element _) = _
  rw [visitNode_element, visitEl_eq]
  rfl

/-- C3, counterexample: the first pass only prunes the first of the two
whitespace children (the second is neither first, last, nor flanked by
`Element`/`Comment` nodes at its original position), so the second pass
finds a new whitespace-only first child and prunes again — running the
optimizer twice does not equal running it once. -/
theorem c3_counterexample :
    optimizeTemplate (optimizeTemplate [c3Tree]) ≠ optimizeTemplate [c3Tree] := by
  have h1 : optimizeTemplate [c3Tree] =
      [.Element (.mk c3DivTag [.Text " ".toList, c3SpanNode] 0)] := by
    show [visitNode c3Tree] = _
    rw [show visitNode c3Tree = .Element (visitEl
      (.mk c3DivTag [.Text " ".toList, .Text " ".toList, c3SpanNode] 0)) from
      visitNode_element _]
    rw [visitEl_eq]
    rw [show processChildren c3DivTag [.Text " ".toList, .Text " ".toList, c3SpanNode]
      = [.Text " ".toList, c3SpanNode] from rfl]
    rw [List.map_cons, List.map_cons, List.map_nil, visitNode_text,
      visitNode_c3SpanNode]
  have h2 : optimizeTemplate [.Element (.mk c3DivTag [.Text " ".toList, c3SpanNode] 0)] =
      [.Element (.mk c3DivTag [c3SpanNode] 0)] := by
    show [visitNode (.Element (.mk c3DivTag [.Text " ".toList, c3SpanNode] 0))] = _
    rw [visitNode_element, visitEl_eq]
    rw [show processChildren c3DivTag [.Text " ".toList, c3SpanNode]
      = [c3SpanNode] from rfl]
    rw [List.map_cons, List.map_nil, visitNode_c3SpanNode]
  intro h
  rw [h1, h2] at h
  have h3 : (1 : Nat) = 2 := congrArg firstRootChildCount h
  exact absurd h3 (by decide)

end Opt

namespace Cg

/-- `parser::attributes::VDirective` (fields as consumed by
`generate_directives`): name, argument (empty when absent), modifier set,
optional bound value, dynamic-slot flag. -/
structure VDirective where
  name : Str
  argument : Str
  modifiers : List Str
  value : Option Str
  is_dynamic_slot : Bool
  deriving DecidableEq

/-- `parser::attributes::HtmlAttribute`: a plain attribute or a directive. -/
inductive HtmlAttribute where
  | Regular (name : Str) (value : Str)
  | VDirective (directive : VDirective)
  deriving DecidableEq

/-- `parser::structs::StartingTag` as consumed by the codegen: tag name and
attribute list (the self-closing flag is never read here). -/
structure StartingTag where
  tag_name : Str
  attributes : List HtmlAttribute
  is_self_closing : Bool := false
  deriving DecidableEq

/-- The runtime helper kinds referenced by directive codegen
(`imports::VueImports` variants used in this file). -/
inductive VueImports where
  | VModelCheckbox
  | VModelRadio
  | VModelText
  | VModelSelect
  | VShow
  | ResolveDirective
  deriving DecidableEq

/-- Modelled from the spec (§4.3a): each runtime helper kind has one stable
short identifier used wherever the helper is referenced. -/
def vueImportIdent : VueImports → Str
  | .VModelCheckbox => "_vModelCheckbox".toList
  | .VModelRadio => "_vModelRadio".toList
  | .VModelText => "_vModelText".toList
  | .VModelSelect => "_vModelSelect".toList
  | .VShow => "_vShow".toList
  | .ResolveDirective => "_resolveDirective".toList

/-- `compiler::codegen::CodegenContext` state read or written by directive
codegen: the custom-directive registry (a map from literal directive name
to assigned Js identifier), the ordered deduplicating set of used runtime
helpers, and the code-formatting indentation cursor. -/
structure CodegenContext where
  directives : List (Str × Str) := []
  imports : List VueImports := []
  indentLevel : Nat := 0

/-- Modelled from the spec (§4.3a): `get_and_add_import_str` — register the
helper on first use, return its stable identifier. -/
def getAndAddImport (ctx : CodegenContext) (vi : VueImports) : CodegenContext × Str :=
  if ctx.imports.contains vi then (ctx, vueImportIdent vi)
  else ({ ctx with imports := ctx.imports ++ [vi] }, vueImportIdent vi)

/-- `HashMap::get` on the directives registry, modelled over an
association list. -/
def assocGet : List (Str × Str) → Str → Option Str
  | [], _ => none
  | (k, v) :: rest, key => if k == key then some v else assocGet rest key

/-- `directive_name.replace('-', "_")`. -/
def normalizeDirectiveName (name : Str) : Str :=
  name.map fun ch => if ch == '-' then '_' else ch

/-- The `_directive_` prefix plus the normalized directive name. -/
def directiveIdent (name : Str) : Str :=
  "_directive_".toList ++ normalizeDirectiveName name

/-- `add_to_directives_and_write` (lines 139–156): look the name up in the
registry and reuse the existing identifier, otherwise derive the
identifier, record it, and use it. -/
def addToDirectivesAndWrite (ctx : CodegenContext) (name : Str) : CodegenContext × Str :=
  match assocGet ctx.directives name with
  | some ident => (ctx, ident)
  | none =>
      let ident := directiveIdent name
      ({ ctx with directives := ctx.directives ++ [(name, ident)] }, ident)

/-- The `find_map` over attributes for the first plain `type` attribute. -/
def findInputType (attrs : List HtmlAttribute) : Option Str :=
  attrs.findSome? fun a =>
    match a with
    | .Regular nm v => if nm == "type".toList then some v else none
    | _ => none

/-- The tag-and-type selection of `get_vmodel_directive_name`
(lines 158–190); `none` models the `unreachable!` panic for any tag other
than `input`, `textarea`, `select`. -/
def vmodelHelperKind (st : StartingTag) : Option VueImports :=
  if st.tag_name == "input".toList then
    let input_type := (findInputType st.attributes).getD "text".toList
    if input_type == "checkbox".toList then some .VModelCheckbox
    else if input_type == "radio".toList then some .VModelRadio
    else some .VModelText
  else if st.tag_name == "textarea".toList then some .VModelText
  else if st.tag_name == "select".toList then some .VModelSelect
  else none

/-- `get_vmodel_directive_name`: select the helper kind, register the
import, return its identifier; `none` is the fatal `unreachable!`. -/
def getVmodelDirectiveName (ctx : CodegenContext) (st : StartingTag) :
    Option (CodegenContext × Str) :=
  (vmodelHelperKind st).map fun k => getAndAddImport ctx k

/-- Modelled from the spec (§4.3c): the indentation produced by the
`CodeHelper` cursor — two spaces per level after each newline. -/
def indentStr (level : Nat) : Str :=
  List.replicate (2 * level) ' '

/-- Modelled from the spec (§4.3c): `CodeHelper::newline`. -/
def newlineStr (level : Nat) : Str :=
  '\n' :: indentStr level

/-- Modelled from the spec (§4.3c): `CodeHelper::quoted`. -/
def quoted (s : Str) : Str :=
  '"' :: (s ++ ['"'])

/-- Modelled from the spec (§4.3c): `CodeHelper::obj_from_entries_iter`,
an object literal mapping each key to its value text. -/
def objFromEntries (entries : List (Str × Str)) : Str :=
  ['{', ' '] ++
    (List.intercalate ", ".toList
      (entries.map fun e => e.1 ++ ": ".toList ++ e.2)) ++ [' ', '}']

/-- The three-way identifier resolution of lines 50–58: `model` on a
non-component resolves through the v-model table (possibly fatal), `show`
through the runtime import registry, anything else through the
custom-directive registry. -/
def writeDirectiveIdent (ctx : CodegenContext) (st : StartingTag) (name : Str)
    (isComp : Bool) : Option (CodegenContext × Str) :=
  if name == "model".toList && !isComp then getVmodelDirectiveName ctx st
  else if name == "show".toList then some (getAndAddImport ctx .VShow)
  else some (addToDirectivesAndWrite ctx name)

/-- One directive's emission (loop body of `generate_directives`,
lines 30–108): indent and newline, then the positional descriptor array
with trailing elision, then unindent.  The produced text is what the
source appends to `buf`; `none` models the fatal v-model panic. -/
def genDirective (resolve : Str → Nat → Option Str) (ctx : CodegenContext)
    (st : StartingTag) (isComp : Bool) (scope : Nat) (d : VDirective) :
    Option (CodegenContext × Str) :=
  let ctx0 : CodegenContext := { ctx with indentLevel := ctx.indentLevel + 1 }
  let lead : Str := newlineStr ctx0.indentLevel
  let has_argument := decide (0 < d.argument.length)
  let has_modifiers := decide (0 < d.modifiers.length)
  let has_arg_or_modifiers := has_argument || has_modifiers
  let ctx1 : CodegenContext :=
    if has_arg_or_modifiers then { ctx0 with indentLevel := ctx0.indentLevel + 1 } else ctx0
  let openPart : Str :=
    if has_arg_or_modifiers then '[' :: newlineStr ctx1.indentLevel else ['[']
  match writeDirectiveIdent ctx1 st d.name isComp with
  | none => none
  | some (ctx2, ident) =>
      let valuePart : Str :=
        match d.value with
        | some v =>
            (if has_arg_or_modifiers then ',' :: newlineStr ctx2.indentLevel
             else ", ".toList) ++
              (match resolve v scope with
               | some tv => tv
               | none => "void 0".toList)
        | none =>
            if has_arg_or_modifiers then
              (',' :: newlineStr ctx2.indentLevel) ++ "void 0".toList
            else []
      let argPart : Str :=
        if has_arg_or_modifiers then
          (',' :: newlineStr ctx2.indentLevel) ++
            (if has_argument then quoted d.argument else "void 0".toList)
        else []
      let modPart : Str :=
        if has_modifiers then
          (',' :: newlineStr ctx2.indentLevel) ++
            objFromEntries (d.modifiers.map fun m => (m, "true".toList))
        else []
      let ctx3 : CodegenContext :=
        if has_arg_or_modifiers then { ctx2 with indentLevel := ctx2.indentLevel - 1 }
        else ctx2
      let closePart : Str :=
        (if has_arg_or_modifiers then newlineStr ctx3.indentLevel else []) ++ [']']
      some ({ ctx3 with indentLevel := ctx3.indentLevel - 1 },
        lead ++ openPart ++ ident ++ valuePart ++ argPart ++ modPart ++ closePart)

/-- Modelled from the spec (§4.4): `supports_with_directive` is a fixed
allow/deny policy keyed by directive name and component-ness; the spec
does not enumerate the table, so it is a parameter here. -/
def DirectivePolicy := Str → Bool → Bool

/-- The attribute loop of `generate_directives` (lines 17–109): skip plain
attributes and unsupported directives, emit the rest in order, threading
the context; `none` propagates the fatal v-model case. -/
def genDirectivesLoop (supports : DirectivePolicy) (resolve : Str → Nat → Option Str)
    (st : StartingTag) (isComp : Bool) (scope : Nat) :
    List HtmlAttribute → CodegenContext → Option (CodegenContext × Str)
  | [], ctx => some (ctx, [])
  | a :: rest, ctx =>
      match a with
      | .Regular _ _ => genDirectivesLoop supports resolve st isComp scope rest ctx
      | .VDirective d =>
          if supports d.name isComp then
            match genDirective resolve ctx st isComp scope d with
            | none => none
            | some (ctx', txt) =>
                match genDirectivesLoop supports resolve st isComp scope rest ctx' with
                | none => none
                | some (ctxr, txtr) => some (ctxr, txt ++ txtr)
          else genDirectivesLoop supports resolve st isComp scope rest ctx
      
/-- `generate_directives` (lines 7–114): the surrounding array brackets
and final newline around the emitted descriptors. -/
def generateDirectives (supports : DirectivePolicy) (resolve : Str → Nat → Option Str)
    (ctx : CodegenContext) (st : StartingTag) (isComp : Bool) (scope : Nat) :
    Option (CodegenContext × Str) :=
  match genDirectivesLoop supports resolve st isComp scope st.attributes ctx with
  | none => none
  | some (ctx', body) =>
      some (ctx', '[' :: body ++ newlineStr ctx'.indentLevel ++ [']'])

end Cg

namespace Cg

/-- C5: v-model helper selection by tag name and `type` attribute —
checkbox/radio/other-or-absent for `<input>`, text for `<textarea>`,
select for `<select>`, and a fatal failure (no emitted call) for every
other non-component tag. -/
theorem c5_vmodel_selection :
    (∀ st : StartingTag, st.tag_name = "input".toList →
        findInputType st.attributes = some "checkbox".toList →
        vmodelHelperKind st = some .VModelCheckbox) ∧
      (∀ st : StartingTag, st.tag_name = "input".toList →
        findInputType st.attributes = some "radio".toList →
        vmodelHelperKind st = some .VModelRadio) ∧
      (∀ st : StartingTag, st.tag_name = "input".toList →
        findInputType st.attributes = none →
        vmodelHelperKind st = some .VModelText) ∧
      (∀ (st : StartingTag) (ty : Str), st.tag_name = "input".toList →
        findInputType st.attributes = some ty →
        ty ≠ "checkbox".toList → ty ≠ "radio".toList →
        vmodelHelperKind st = some .VModelText) ∧
      (∀ st : StartingTag, st.tag_name = "textarea".toList →
        vmodelHelperKind st = some .VModelText) ∧
      (∀ st : StartingTag, st.tag_name = "select".toList →
        vmodelHelperKind st = some .VModelSelect) ∧
      (∀ (st : StartingTag) (ctx : CodegenContext),
        st.tag_name ≠ "input".toList → st.tag_name ≠ "textarea".toList →
        st.tag_name ≠ "select".toList →
        vmodelHelperKind st = none ∧ getVmodelDirectiveName ctx st = none) ∧
      (∀ (resolve : Str → Nat → Option Str) (ctx : CodegenContext)
        (st : StartingTag) (scope : Nat) (d : VDirective),
        d.name = "model".toList →
        st.tag_name ≠ "input".toList → st.tag_name ≠ "textarea".toList →
        st.tag_name ≠ "select".toList →
        genDirective resolve ctx st false scope d = none) := by
  have hother : ∀ (st : StartingTag), st.tag_name ≠ "input".toList →
      st.tag_name ≠ "textarea".toList → st.tag_name ≠ "select".toList →
      vmodelHelperKind st = none := by
    intro st h1 h2 h3
    unfold vmodelHelperKind
    simp only [beq_eq_false_iff_ne.mpr h1, beq_eq_false_iff_ne.mpr h2,
      beq_eq_false_iff_ne.mpr h3]
    rfl
  refine ⟨?_, ?_, ?_, ?_, ?_, ?_, ?_, ?_⟩
  · intro st h1 h2
    unfold vmodelHelperKind
    rw [h1, h2]
    rfl
  · intro st h1 h2
    unfold vmodelHelperKind
    rw [h1, h2]
    rfl
  · intro st h1 h2
    unfold vmodelHelperKind
    rw [h1, h2]
    rfl
  · intro st ty h1 h2 h3 h4
    unfold vmodelHelperKind
    rw [h1, h2]
    simp only [beq_self_eq_true, if_true, Option.getD_some]
    simp only [beq_eq_false_iff_ne.mpr h3, beq_eq_false_iff_ne.mpr h4]
    rfl
  · intro st h1
    unfold vmodelHelperKind
    rw [h1]
    rfl
  · intro st h1
    unfold vmodelHelperKind
    rw [h1]
    rfl
  · intro st ctx h1 h2 h3
    have hv := hother st h1 h2 h3
    exact ⟨hv, by unfold getVmodelDirectiveName; rw [hv]; rfl⟩
  · intro resolve ctx st scope d hname h1 h2 h3
    unfold genDirective
    have hw : ∀ ctx' : CodegenContext,
        writeDirectiveIdent ctx' st d.name false = none := by
      intro ctx'
      unfold writeDirectiveIdent
      rw [hname]
      simp only [beq_self_eq_true, Bool.not_false, Bool.and_true, if_true]
      unfold getVmodelDirectiveName
      rw [hother st h1 h2 h3]
      rfl
    simp only [hw]

/-- Concrete v-model fixtures. -/
def c5InputCheckbox : StartingTag :=
  { tag_name := "input".toList,
    attributes := [.Regular "type".toList "checkbox".toList] }

def c5InputPlain : StartingTag := { tag_name := "input".toList, attributes := [] }

def c5Select : StartingTag := { tag_name := "select".toList, attributes := [] }

def c5Div : StartingTag := { tag_name := "div".toList, attributes := [] }

/-- Witness for `c5_vmodel_selection` at the spec's four scenarios. -/
theorem c5_vmodel_selection_witness :
    vmodelHelperKind c5InputCheckbox = some .VModelCheckbox ∧
      vmodelHelperKind c5InputPlain = some .VModelText ∧
      vmodelHelperKind c5Select = some .VModelSelect ∧
      getVmodelDirectiveName {} c5Div = none :=
  ⟨c5_vmodel_selection.1 c5InputCheckbox rfl rfl,
   c5_vmodel_selection.2.2.1 c5InputPlain rfl rfl,
   c5_vmodel_selection.2.2.2.2.2.1 c5Select rfl,
   (c5_vmodel_selection.2.2.2.2.2.2.1 c5Div {} (by decide) (by decide) (by decide)).2⟩

end Cg

namespace Cg

/-- A plain element tag used as host for directive emission fixtures. -/
def c6Tag : StartingTag := { tag_name := "div".toList, attributes := [] }

/-- C6, counterexample: a directive with no value but an argument emits
the literal `void 0` — not the literal `undefined` — in the value
position; the string `undefined` appears nowhere in the emitted
descriptor. -/
theorem c6_counterexample :
    ((genDirective (fun _ _ => none) {} c6Tag false 0
        ⟨"foo".toList, "bar".toList, [], none, false⟩).map (fun r => r.2) =
      some "\n  [\n    _directive_foo,\n    void 0,\n    \"bar\"\n  ]".toList) ∧
      occursIn "undefined".toList
        "\n  [\n    _directive_foo,\n    void 0,\n    \"bar\"\n  ]".toList = false ∧
      occursIn "void 0".toList
        "\n  [\n    _directive_foo,\n    void 0,\n    \"bar\"\n  ]".toList = true :=
  ⟨rfl, by decide, by decide⟩

/-- C6, amended: each descriptor is a positional array with trailing
elision — `[identifier]` when value, argument and modifiers are all
absent; `[identifier, value]` when only a value is present; `void 0` (not
`undefined`) fills the value position when no value was given but an
argument or modifiers exist; the argument/modifier positions appear only
when at least one of them is present, and the modifiers become an object
mapping each modifier to the literal `true`. -/
theorem c6_directive_array_elision :
    ∀ (resolve : Str → Nat → Option Str) (ctx : CodegenContext) (st : StartingTag)
      (isComp : Bool) (scope : Nat) (name : Str) (dyn : Bool),
      (∀ ctx2 ident,
        writeDirectiveIdent { ctx with indentLevel := ctx.indentLevel + 1 } st name isComp
            = some (ctx2, ident) →
        (genDirective resolve ctx st isComp scope ⟨name, [], [], none, dyn⟩ =
          some ({ ctx2 with indentLevel := ctx2.indentLevel - 1 },
            newlineStr (ctx.indentLevel + 1) ++ '[' :: (ident ++ [']']))) ∧
        (∀ v, genDirective resolve ctx st isComp scope ⟨name, [], [], some v, dyn⟩ =
          some ({ ctx2 with indentLevel := ctx2.indentLevel - 1 },
            newlineStr (ctx.indentLevel + 1) ++ '[' :: (ident ++ ", ".toList ++
              (match resolve v scope with
               | some tv => tv
               | none => "void 0".toList) ++ [']'])))) ∧
      (∀ (arg : Str) ctx2 ident, 0 < arg.length →
        writeDirectiveIdent { ctx with indentLevel := ctx.indentLevel + 2 } st name isComp
            = some (ctx2, ident) →
        genDirective resolve ctx st isComp scope ⟨name, arg, [], none, dyn⟩ =
          some ({ ctx2 with indentLevel := ctx2.indentLevel - 1 - 1 },
            newlineStr (ctx.indentLevel + 1) ++ '[' :: (newlineStr (ctx.indentLevel + 2) ++
              ident ++ (',' :: newlineStr ctx2.indentLevel) ++ "void 0".toList ++
              (',' :: newlineStr ctx2.indentLevel) ++ quoted arg ++
              newlineStr (ctx2.indentLevel - 1) ++ [']']))) ∧
      (∀ (v arg : Str) (ms : List Str) ctx2 ident, 0 < arg.length → 0 < ms.length →
        writeDirectiveIdent { ctx with indentLevel := ctx.indentLevel + 2 } st name isComp
            = some (ctx2, ident) →
        genDirective resolve ctx st isComp scope ⟨name, arg, ms, some v, dyn⟩ =
          some ({ ctx2 with indentLevel := ctx2.indentLevel - 1 - 1 },
            newlineStr (ctx.indentLevel + 1) ++ '[' :: (newlineStr (ctx.indentLevel + 2) ++
              ident ++ (',' :: newlineStr ctx2.indentLevel) ++
              (match resolve v scope with
               | some tv => tv
               | none => "void 0".toList) ++
              (',' :: newlineStr ctx2.indentLevel) ++ quoted arg ++
              (',' :: newlineStr ctx2.indentLevel) ++
              objFromEntries (ms.map fun m => (m, "true".toList)) ++
              newlineStr (ctx2.indentLevel - 1) ++ [']']))) := by
  intro resolve ctx st isComp scope name dyn
  refine ⟨?_, ?_, ?_⟩
  · intro ctx2 ident hid
    constructor
    · unfold genDirective
      simp
      rw [hid]
    · intro v
      unfold genDirective
      simp
      rw [hid]
  · intro arg ctx2 ident harg hid
    unfold genDirective
    simp [decide_eq_true harg]
    rw [hid]
  · intro v arg ms ctx2 ident harg hms hid
    unfold genDirective
    simp [decide_eq_true harg, decide_eq_true hms]
    rw [hid]

end Cg

namespace Cg

def c6Ctx2 : CodegenContext :=
  { directives := [("foo".toList, "_directive_foo".toList)], imports := [],
    indentLevel := 2 }

/-- Witness for `c6_directive_array_elision` at the no-value-with-argument
case of `v-foo:bar` on a plain element. -/
theorem c6_directive_array_elision_witness :
    (0 : Nat) < "bar".toList.length ∧
      genDirective (fun _ _ => none) {} c6Tag false 0
          ⟨"foo".toList, "bar".toList, [], none, false⟩ =
        some ({ c6Ctx2 with indentLevel := c6Ctx2.indentLevel - 1 - 1 },
          newlineStr (CodegenContext.indentLevel {} + 1) ++
            '[' :: (newlineStr (CodegenContext.indentLevel {} + 2) ++
              "_directive_foo".toList ++ (',' :: newlineStr c6Ctx2.indentLevel) ++
              "void 0".toList ++ (',' :: newlineStr c6Ctx2.indentLevel) ++
              quoted "bar".toList ++ newlineStr (c6Ctx2.indentLevel - 1) ++ [']'])) :=
  ⟨by decide,
   (c6_directive_array_elision (fun _ _ => none) {} c6Tag false 0 "foo".toList
      false).2.1 "bar".toList c6Ctx2 "_directive_foo".toList (by decide) rfl⟩

end Cg

namespace Cg

/-- C7, counterexample: for a directive `v-foo="x"` whose value the
external resolver declines to transform (returns nothing), the emitted
value position is the literal `void 0`; the original expression text `x`
appears nowhere in the output, contrary to the claim that it is passed
through unchanged. -/
theorem c7_counterexample :
    ((genDirective (fun _ _ => none) {} c6Tag false 0
        ⟨"foo".toList, [], [], some "x".toList, false⟩).map (fun r => r.2) =
      some "\n  [_directive_foo, void 0]".toList) ∧
      occursIn "x".toList "\n  [_directive_foo, void 0]".toList = false :=
  ⟨rfl, by decide⟩

/-- C7, amended: when a bound value is present, the emitted value position
is the resolver's transformation when the resolver returns one, and the
literal `void 0` when the resolver returns nothing — the original
expression text is not substituted; `void 0` is thus used both when no
value was expected and when the resolver declines to transform. -/
theorem c7_value_resolution :
    ∀ (resolve : Str → Nat → Option Str) (ctx : CodegenContext) (st : StartingTag)
      (isComp : Bool) (scope : Nat) (name : Str) (dyn : Bool) (v : Str)
      (ctx2 : CodegenContext) (ident : Str),
      writeDirectiveIdent { ctx with indentLevel := ctx.indentLevel + 1 } st name isComp
          = some (ctx2, ident) →
      (resolve v scope = none →
        genDirective resolve ctx st isComp scope ⟨name, [], [], some v, dyn⟩ =
          some ({ ctx2 with indentLevel := ctx2.indentLevel - 1 },
            newlineStr (ctx.indentLevel + 1) ++
              '[' :: (ident ++ ", ".toList ++ "void 0".toList ++ [']']))) ∧
      (∀ tv, resolve v scope = some tv →
        genDirective resolve ctx st isComp scope ⟨name, [], [], some v, dyn⟩ =
          some ({ ctx2 with indentLevel := ctx2.indentLevel - 1 },
            newlineStr (ctx.indentLevel + 1) ++
              '[' :: (ident ++ ", ".toList ++ tv ++ [']']))) := by
  intro resolve ctx st isComp scope name dyn v ctx2 ident hid
  constructor
  · intro hr
    unfold genDirective
    simp [hr]
    rw [hid]
  · intro tv hr
    unfold genDirective
    simp [hr]
    rw [hid]

/-- Witness for `c7_value_resolution`: a resolver that declines every
expression, applied to `v-foo="x"` on a plain element. -/
theorem c7_value_resolution_witness :
    writeDirectiveIdent { directives := [], imports := [], indentLevel := 0 + 1 }
        c6Tag "foo".toList false =
      some ({ directives := [("foo".toList, "_directive_foo".toList)],
              imports := [], indentLevel := 1 }, "_directive_foo".toList) ∧
      (fun (_ : Str) (_ : Nat) => (none : Option Str)) "x".toList 0 = none ∧
      genDirective (fun _ _ => none) {} c6Tag false 0
          ⟨"foo".toList, [], [], some "x".toList, false⟩ =
        some ({ directives := [("foo".toList, "_directive_foo".toList)],
                imports := [], indentLevel := 1 - 1 },
          newlineStr (CodegenContext.indentLevel {} + 1) ++
            '[' :: ("_directive_foo".toList ++ ", ".toList ++ "void 0".toList ++ [']'])) :=
  ⟨rfl, rfl,
   (c7_value_resolution (fun _ _ => none) {} c6Tag false 0 "foo".toList false
      "x".toList { directives := [("foo".toList, "_directive_foo".toList)],
                   imports := [], indentLevel := 1 } "_directive_foo".toList rfl).1 rfl⟩

end Cg

namespace Cg

/-- C8, counterexample: the distinct directive names `a-b` and `a_b`
normalize to the same identifier `_directive_a_b`, so two distinct names
collide — the registry's identifiers are not injective. -/
theorem c8_counterexample :
    (addToDirectivesAndWrite (addToDirectivesAndWrite {} "a-b".toList).1
        "a_b".toList).2 = (addToDirectivesAndWrite {} "a-b".toList).2 ∧
      "a-b".toList ≠ "a_b".toList :=
  ⟨rfl, by decide⟩

theorem assocGet_append_of_none {m : List (Str × Str)} {key : Str} (v : Str)
    (h : assocGet m key = none) : assocGet (m ++ [(key, v)]) key = some v := by
  induction m with
  | nil => simp [assocGet]
  | cons p rest ih =>
      rw [List.cons_append]
      show (if p.1 == key then some p.2 else assocGet (rest ++ [(key, v)]) key) = some v
      have h' : assocGet (p :: rest) key = none := h
      unfold assocGet at h'
      by_cases hk : p.1 == key
      · rw [hk] at h'
        simp at h'
      · rw [Bool.not_eq_true] at hk
        rw [hk] at h' ⊢
        simp only [if_false, Bool.false_eq_true]
        exact ih h'

/-- The registry invariant: every stored identifier is derived from its
key by normalization and prefixing. -/
def registryInv (m : List (Str × Str)) : Prop :=
  ∀ p ∈ m, p.2 = directiveIdent p.1

theorem assocGet_of_inv {m : List (Str × Str)} {key v : Str}
    (hinv : registryInv m) (h : assocGet m key = some v) : v = directiveIdent key := by
  induction m with
  | nil => exact absurd h (by simp [assocGet])
  | cons p rest ih =>
      unfold assocGet at h
      by_cases hk : p.1 == key
      · rw [hk] at h
        simp only [if_true] at h
        have hkey : p.1 = key := eq_of_beq hk
        have hv : p.2 = directiveIdent p.1 := hinv p (List.mem_cons_self _ _)
        have hpv : p.2 = v := by
          injection h with h2
        rw [← hpv, hv, hkey]
      · rw [Bool.not_eq_true] at hk
        rw [hk] at h
        simp only [if_false, Bool.false_eq_true] at h
        exact ih (fun q hq => hinv q (List.mem_cons_of_mem _ hq)) h

theorem addToDirectivesAndWrite_snd {ctx : CodegenContext} {name : Str}
    (hinv : registryInv ctx.directives) :
    (addToDirectivesAndWrite ctx name).2 = directiveIdent name := by
  unfold addToDirectivesAndWrite
  cases hg : assocGet ctx.directives name with
  | none => rfl
  | some v => exact assocGet_of_inv hinv hg

theorem addToDirectivesAndWrite_inv {ctx : CodegenContext} {name : Str}
    (hinv : registryInv ctx.directives) :
    registryInv (addToDirectivesAndWrite ctx name).1.directives := by
  unfold addToDirectivesAndWrite
  cases hg : assocGet ctx.directives name with
  | none =>
      intro p hp
      rcases List.mem_append.mp hp with hp | hp
      · exact hinv p hp
      · have : p = (name, directiveIdent name) := by simpa using hp
        rw [this]
  | some v => exact hinv

/-- Registry states reachable within one compilation: the fold of the
request sequence from the empty context. -/
def runAdds (names : List Str) : CodegenContext :=
  names.foldl (fun c n => (addToDirectivesAndWrite c n).1) {}

theorem runAdds_inv (names : List Str) : registryInv (runAdds names).directives := by
  have haux : ∀ (l : List Str) (c : CodegenContext), registryInv c.directives →
      registryInv (l.foldl (fun c n => (addToDirectivesAndWrite c n).1) c).directives := by
    intro l
    induction l with
    | nil => intro c hc; exact hc
    | cons x xs ih =>
        intro c hc
        exact ih _ (addToDirectivesAndWrite_inv hc)
  exact haux names {} (fun p hp => absurd hp (by simp))

/-- C8, amended: within one compilation the registry is deterministic —
requesting the same literal name twice returns the same identifier both
times, and after any request sequence every request yields the
`_directive_` prefix plus the `-`-to-`_` normalized name; hence two
distinct names receive distinct identifiers exactly when their normalized
forms differ (names differing only in `-` versus `_` collide). -/
theorem c8_registry_dedup :
    (∀ (ctx : CodegenContext) (name : Str),
      (addToDirectivesAndWrite (addToDirectivesAndWrite ctx name).1 name).2 =
        (addToDirectivesAndWrite ctx name).2) ∧
      (∀ (names : List Str) (n : Str),
        (addToDirectivesAndWrite (runAdds names) n).2 = directiveIdent n) ∧
      (∀ (names : List Str) (n1 n2 : Str),
        normalizeDirectiveName n1 ≠ normalizeDirectiveName n2 →
        (addToDirectivesAndWrite (runAdds names) n1).2 ≠
          (addToDirectivesAndWrite (runAdds names) n2).2) := by
  refine ⟨?_, ?_, ?_⟩
  · intro ctx name
    unfold addToDirectivesAndWrite
    cases hg : assocGet ctx.directives name with
    | some v => simp [hg]
    | none =>
        simp only [hg]
        rw [assocGet_append_of_none (directiveIdent name) hg]
  · intro names n
    exact addToDirectivesAndWrite_snd (runAdds_inv names)
  · intro names n1 n2 hne
    rw [addToDirectivesAndWrite_snd (runAdds_inv names),
      addToDirectivesAndWrite_snd (runAdds_inv names)]
    unfold directiveIdent
    intro h
    exact hne (List.append_cancel_left h)

/-- Witness for `c8_registry_dedup`: names `foo` and `bar` after an empty
request history. -/
theorem c8_registry_dedup_witness :
    normalizeDirectiveName "foo".toList ≠ normalizeDirectiveName "bar".toList ∧
      (addToDirectivesAndWrite (runAdds []) "foo".toList).2 ≠
        (addToDirectivesAndWrite (runAdds []) "bar".toList).2 :=
  ⟨by decide, c8_registry_dedup.2.2 [] "foo".toList "bar".toList (by decide)⟩

end Cg

namespace Prs

/-- Modelled from the spec: `html_utils::ElementKind` — `Normal`, `Void`
(no children, no end tag), `RawText` (partially implemented / unused in
the parsing path under verification). -/
inductive ElementKind where
  | Normal
  | Void
  | RawText
  deriving DecidableEq

/-- Modelled from the spec: a parsed attribute (the full directive
grammar lives in the missing `attributes` module; the inputs exercised
here carry plain attributes only). -/
structure Attribute where
  name : Str
  value : Option Str
  deriving DecidableEq

/-- `parser::structs::StartingTag`. -/
structure StartingTag where
  tag_name : Str
  attributes : List Attribute
  is_self_closing : Bool
  kind : ElementKind
  deriving DecidableEq

mutual
/-- `parser::structs::ElementNode`. -/
inductive ElementNode where
  | mk (starting_tag : StartingTag) (children : List Node) (template_scope : Nat)

/-- `parser::structs::Node`. -/
inductive Node where
  | ElementNode (el : ElementNode)
  | TextNode (s : Str)
  | CommentNode (s : Str)
  | DynamicExpression (value : Str) (template_scope : Nat)
end

/-- A recorded end-tag-mismatch diagnostic: (start tag, end tag).  The
source prints this with `println!`; the model collects it. -/
abbrev Warn := Str × Str

/-- `nom::bytes::complete::tag`: match a literal prefix. -/
def tagP (lit : Str) (input : Str) : Option (Str × Str) :=
  if leadsWith lit input then some (input.drop lit.length, lit) else none

/-- Index of the first occurrence of `lit`. -/
def findSub (lit : Str) : Str → Option Nat
  | [] => if leadsWith lit [] then some 0 else none
  | c :: rest =>
      if leadsWith lit (c :: rest) then some 0
      else (findSub lit rest).map (· + 1)

/-- `nom::bytes::complete::take_until1`: consume up to (not including) the
first occurrence of `lit`; fails when `lit` is absent or immediate. -/
def takeUntil1 (lit : Str) (input : Str) : Option (Str × Str) :=
  match findSub lit input with
  | none => none
  | some 0 => none
  | some n => some (input.drop n, input.take n)

/-- `nom::bytes::complete::take_until`: like `takeUntil1` but an empty
take succeeds. -/
def takeUntil (lit : Str) (input : Str) : Option (Str × Str) :=
  match findSub lit input with
  | none => none
  | some n => some (input.drop n, input.take n)

/-- Modelled from the spec: `html_utils::html_name` — a maximal non-empty
run of name characters (alphanumeric, `-`, `_`). -/
def isNameChar (c : Char) : Bool :=
  c.isAlphanum || c == '-' || c == '_'

def htmlName (input : Str) : Option (Str × Str) :=
  match input.takeWhile isNameChar with
  | [] => none
  | nm => some (input.drop nm.length, nm)

/-- Modelled from the spec: one whitespace-separated attribute, a name
optionally followed by `="value"`. -/
def parseAttribute (input : Str) : Option (Str × Attribute) :=
  let rest1 := input.dropWhile Char.isWhitespace
  match htmlName rest1 with
  | none => none
  | some (rest2, nm) =>
      match rest2 with
      | '=' :: '"' :: rest3 =>
          match takeUntil ['"'] rest3 with
          | none => none
          | some (rest4, v) => some (rest4.drop 1, ⟨nm, some v⟩)
      | _ => some (rest2, ⟨nm, none⟩)

/-- Modelled from the spec: `parse_attributes` — zero or more attributes
(a `many0`, with nom's no-consumption loop protection). -/
def parseAttributesAux : Nat → Str → Str × List Attribute
  | 0, input => (input, [])
  | fuel + 1, input =>
      match parseAttribute input with
      | none => (input, [])
      | some (rest, a) =>
          if rest.length < input.length then
            let r := parseAttributesAux fuel rest
            (r.1, a :: r.2)
          else (input, [])

def parseAttributes (input : Str) : Str × List Attribute :=
  parseAttributesAux input.length input

/-- Modelled from the spec: `classify_element_kind` — the HTML void
elements are `Void`, everything else `Normal` here. -/
def voidTags : List Str :=
  ["area", "base", "br", "col", "embed", "hr", "img", "input", "link",
   "meta", "param", "source", "track", "wbr"].map String.toList

def classifyElementKind (nm : Str) : ElementKind :=
  if voidTags.contains nm then .Void else .Normal

/-- `parse_element_starting_tag` (lines 20–41): `<`, tag name, attributes,
optional whitespace, then `>` or `/>`. -/
def parseElementStartingTag (input : Str) : Option (Str × StartingTag) :=
  match tagP ['<'] input with
  | none => none
  | some (r1, _) =>
      match htmlName r1 with
      | none => none
      | some (r2, nm) =>
          let ra := parseAttributes r2
          let r4 := ra.1.dropWhile Char.isWhitespace
          match tagP ['>'] r4 with
          | some (r5, _) =>
              some (r5, ⟨nm, ra.2, false, classifyElementKind nm⟩)
          | none =>
              match tagP ['/', '>'] r4 with
              | some (r5, _) =>
                  some (r5, ⟨nm, ra.2, true, classifyElementKind nm⟩)
              | none => none

/-- `parse_element_end_tag` (lines 43–50): `</`, any tag name, optional
whitespace, `>` — deliberately accepting a name that differs from the
start tag. -/
def parseElementEndTag (input : Str) : Option (Str × Str) :=
  match tagP ['<', '/'] input with
  | none => none
  | some (r1, _) =>
      match htmlName r1 with
      | none => none
      | some (r2, nm) =>
          match tagP ['>'] (r2.dropWhile Char.isWhitespace) with
          | none => none
          | some (r3, _) => some (r3, nm)

/-- `parse_dynamic_expression` (lines 53–55): `{{`, a non-empty span up to
the first `}}`, then `}}`. -/
def parseDynamicExpression (input : Str) : Option (Str × Str) :=
  match tagP ['{', '{'] input with
  | none => none
  | some (r1, _) =>
      match takeUntil1 ['}', '}'] r1 with
      | none => none
      | some (r2, content) =>
          match tagP ['}', '}'] r2 with
          | none => none
          | some (r3, _) => some (r3, content)

/-- Rust `str::trim`. -/
def strTrim (s : Str) : Str :=
  ((s.dropWhile Char.isWhitespace).reverse.dropWhile Char.isWhitespace).reverse

/-- `parse_dynamic_expression_node` (lines 57–60). -/
def parseDynamicExpressionNode (input : Str) : Option (Str × Node) :=
  match parseDynamicExpression input with
  | none => none
  | some (r, content) => some (r, .DynamicExpression (strTrim content) 0)

/-- The character scan of `parse_text_node` (lines 102–115): consume up to
the next `<` or the start of a `{{` delimiter. -/
def textSpan : Str → Str
  | [] => []
  | '<' :: _ => []
  | '{' :: '{' :: _ => []
  | c :: rest => c :: textSpan rest

/-- `parse_text_node`: fails on a zero-length span. -/
def parseTextNode (input : Str) : Option (Str × Node) :=
  match textSpan input with
  | [] => none
  | t => some (input.drop t.length, .TextNode t)

/-- `parse_comment_node` (lines 130–138): `<!--`, anything up to `-->`. -/
def parseCommentNode (input : Str) : Option (Str × Node) :=
  match tagP ("<!--".toList) input with
  | none => none
  | some (r1, _) =>
      match takeUntil ("-->".toList) r1 with
      | none => none
      | some (r2, content) =>
          match tagP ("-->".toList) r2 with
          | none => none
          | some (r3, _) => some (r3, .CommentNode content)

/-- The `alt` of `parse_node_children` (lines 199–204) given the outcome
of the element alternative, in priority order: dynamic expression,
comment, element, text. -/
def childAltWith (elemResult : Option (Str × Node × List Warn)) (input : Str) :
    Option (Str × Node × List Warn) :=
  match parseDynamicExpressionNode input with
  | some (r, n) => some (r, n, [])
  | none =>
      match parseCommentNode input with
      | some (r, n) => some (r, n, [])
      | none =>
          match elemResult with
          | some res => some res
          | none =>
              match parseTextNode input with
              | some (r, n) => some (r, n, [])
              | none => none

mutual
/-- `parse_element_node` (lines 65–100): starting tag; early return for
void/self-closing; otherwise children, then a required end tag whose name
mismatch is only logged (collected as a warning). -/
def parseElementNode : Nat → Str → Option (Str × Node × List Warn)
  | 0, _ => none
  | fuel + 1, input =>
      match parseElementStartingTag input with
      | none => none
      | some (r1, st) =>
          if (st.kind == ElementKind.Void || st.is_self_closing) then
            some (r1, .ElementNode (.mk st [] 0), [])
          else
            match parseNodeChildren fuel r1 with
            | none => none
            | some (r2, children, w1) =>
                match parseElementEndTag r2 with
                | none => none
                | some (r3, endTag) =>
                    some (r3, .ElementNode (.mk st children 0),
                      if endTag ≠ st.tag_name then w1 ++ [(st.tag_name, endTag)]
                      else w1)

/-- `parse_node_children`: `many0` over the alternation, stopping without
error when no alternative matches (with nom's no-consumption loop
protection). -/
def parseNodeChildren : Nat → Str → Option (Str × List Node × List Warn)
  | 0, _ => none
  | fuel + 1, input =>
      match childAltWith (parseElementNode fuel input) input with
      | none => some (input, [], [])
      | some (r, n, w) =>
          if r.length < input.length then
            match parseNodeChildren fuel r with
            | none => none
            | some (r2, ns, w2) => some (r2, n :: ns, w ++ w2)
          else none
end

/-- The element-or-other child alternation at a given recursion budget. -/
def parseChildAlt (fuel : Nat) (input : Str) : Option (Str × Node × List Warn) :=
  childAltWith (parseElementNode fuel input) input

/-- `parse_root_block` (lines 140–180): leading whitespace skipped, then
the same starting-tag/children/end-tag shape as element parsing (no
void/self-closing early return). -/
def parseRootBlock (fuel : Nat) (input : Str) : Option (Str × Node × List Warn) :=
  let input1 := input.dropWhile Char.isWhitespace
  match parseElementStartingTag input1 with
  | none => none
  | some (r1, st) =>
      match parseNodeChildren fuel r1 with
      | none => none
      | some (r2, children, w1) =>
          match parseElementEndTag r2 with
          | none => none
          | some (r3, endTag) =>
              some (r3, .ElementNode (.mk st children 0),
                if endTag ≠ st.tag_name then w1 ++ [(st.tag_name, endTag)]
                else w1)

/-- `parse_sfc` (line 194–196): `many0(parse_root_block)`. -/
def parseSfcAux : Nat → Str → Option (Str × List Node × List Warn)
  | 0, _ => none
  | fuel + 1, input =>
      match parseRootBlock fuel input with
      | none => some (input, [], [])
      | some (r, n, w) =>
          if r.length < input.length then
            match parseSfcAux fuel r with
            | none => none
            | some (r2, ns, w2) => some (r2, n :: ns, w ++ w2)
          else none

end Prs

namespace Prs

/-- C9, counterexample: parsing `<div><span></div>` fails outright — the
inner `<span>` consumes the only end tag `</div>` (with a recorded
mismatch), so the outer `<div>` finds no end tag, which is a hard parse
failure; no node tree containing the span is produced, and the root-block
parser yields zero blocks with the input unconsumed. -/
theorem c9_counterexample :
    parseElementNode 64 "<div><span></div>".toList = none ∧
      parseSfcAux 64 "<div><span></div>".toList =
        some ("<div><span></div>".toList, [], []) :=
  ⟨rfl, rfl⟩

/-- C9, amended: an end tag whose name differs from the opening tag's name
is a non-fatal diagnostic — whenever the starting tag, the children and
some end tag parse, element parsing returns the element built from the
children already collected and records the mismatch, instead of failing;
but an end tag must be present: in `<div><span></div>` the inner span
consumes the only `</div>` (tolerated, with a diagnostic), so the outer
div fails for lack of any end tag and the example input yields no tree. -/
theorem c9_end_tag_mismatch_tolerated :
    ∀ (fuel : Nat) (input r1 : Str) (st : StartingTag) (r2 : Str)
      (children : List Node) (w : List Warn) (r3 endTag : Str),
      parseElementStartingTag input = some (r1, st) →
      (st.kind == ElementKind.Void || st.is_self_closing) = false →
      parseNodeChildren fuel r1 = some (r2, children, w) →
      parseElementEndTag r2 = some (r3, endTag) →
      endTag ≠ st.tag_name →
      parseElementNode (fuel + 1) input =
        some (r3, .ElementNode (.mk st children 0), w ++ [(st.tag_name, endTag)]) := by
  intro fuel input r1 st r2 children w r3 endTag hstart hnotvoid hchildren hend hne
  show (match parseElementStartingTag input with
    | none => none
    | some (r1, st) =>
        if (st.kind == ElementKind.Void || st.is_self_closing) then
          some (r1, Node.ElementNode (.mk st [] 0), ([] : List Warn))
        else
          match parseNodeChildren fuel r1 with
          | none => none
          | some (r2, children, w1) =>
              match parseElementEndTag r2 with
              | none => none
              | some (r3, endTag) =>
                  some (r3, Node.ElementNode (.mk st children 0),
                    if endTag ≠ st.tag_name then w1 ++ [(st.tag_name, endTag)]
                    else w1)) = _
  rw [hstart]
  simp only [hnotvoid, Bool.false_eq_true, if_false]
  rw [hchildren]
  simp only [hend, if_pos hne]

/-- The parsed `<span>` starting tag of the witness input. -/
def c9SpanTag : StartingTag :=
  { tag_name := "span".toList, attributes := [], is_self_closing := false,
    kind := ElementKind.Normal }

/-- Witness for `c9_end_tag_mismatch_tolerated`: `<span></div>` parses to
the span element with no children, consuming the mismatched `</div>` and
recording the (span, div) diagnostic. -/
theorem c9_end_tag_mismatch_tolerated_witness :
    parseElementStartingTag "<span></div>".toList =
        some ("</div>".toList, c9SpanTag) ∧
      (c9SpanTag.kind == ElementKind.Void || c9SpanTag.is_self_closing) = false ∧
      parseNodeChildren 4 "</div>".toList = some ("</div>".toList, [], []) ∧
      parseElementEndTag "</div>".toList = some ([], "div".toList) ∧
      "div".toList ≠ "span".toList ∧
      parseElementNode 5 "<span></div>".toList =
        some ([], .ElementNode (.mk c9SpanTag [] 0),
          [("span".toList, "div".toList)]) :=
  ⟨rfl, rfl, rfl, rfl, by decide,
   c9_end_tag_mismatch_tolerated 4 "<span></div>".toList "</div>".toList c9SpanTag
     "</div>".toList [] [] [] "div".toList rfl rfl rfl rfl (by decide)⟩

end Prs

namespace Prs

theorem parseElementNode_open_brace (fuel : Nat) (xs : Str) :
    parseElementNode fuel ('{' :: xs) = none := by
  cases fuel with
  | zero => rfl
  | succ fuel => rfl

/-- C10: an empty interpolation halts children parsing — on any input
beginning with `{{}}` the dynamic-expression parser fails (the delimited
content must be non-empty), the text parser fails (zero characters precede
the `{{`), no other child alternative applies, and the children parser
stops there, consuming nothing and returning the children collected so
far without an error. -/
theorem c10_empty_interpolation (rest : Str) (fuel : Nat) :
    parseDynamicExpression ('{' :: '{' :: '}' :: '}' :: rest) = none ∧
      parseTextNode ('{' :: '{' :: '}' :: '}' :: rest) = none ∧
      parseNodeChildren (fuel + 1) ('{' :: '{' :: '}' :: '}' :: rest) =
        some ('{' :: '{' :: '}' :: '}' :: rest, [], []) := by
  refine ⟨rfl, rfl, ?_⟩
  show (match childAltWith
      (parseElementNode fuel ('{' :: '{' :: '}' :: '}' :: rest))
      ('{' :: '{' :: '}' :: '}' :: rest) with
    | none => some (('{' :: '{' :: '}' :: '}' :: rest), ([] : List Node), ([] : List Warn))
    | some (r, n, w) =>
        if r.length < ('{' :: '{' :: '}' :: '}' :: rest).length then
          match parseNodeChildren fuel r with
          | none => none
          | some (r2, ns, w2) => some (r2, n :: ns, w ++ w2)
        else none) = some (('{' :: '{' :: '}' :: '}' :: rest), [], [])
  rw [parseElementNode_open_brace]
  rfl

end Prs
